import Mathlib

/-!
Shallow embedding of the 2D-LIDAR reactive pipeline
(`src/2D_LIDAR/planning_path.py` and `src/2D_LIDAR/pre_processing.py`).

Python floats are modelled as exact rationals (`ℚ`), Python ints as `ℤ`/`ℕ`,
Python lists as `List`, and the exceptions the interpreter can raise on the
modelled paths as `Except PyError`.  `a % 360` on a float is
`a - 360 * ⌊a / 360⌋`, `a // b` is `⌊a / b⌋`, and `int % int` with a positive
modulus is `Int.emod`.
-/

namespace DogBot

/-- The four action constants of `planning_path.py`. -/
inductive Action
  | STOP
  | FORWARD
  | TURN_LEFT
  | TURN_RIGHT
deriving DecidableEq, Repr

/-- The Python exceptions reachable on the modelled code paths:
`ZeroDivisionError` (construction with `resolution_deg = 0`),
`IndexError` (`Counter([]).most_common(1)[0]` when the deque capacity is 0),
`ValueError` (`np.interp` with an empty sample-point array, or `np.pad`
in mode `edge` on an empty array). -/
inductive PyError
  | zeroDivisionError
  | indexError
  | valueError
deriving DecidableEq, Repr

/-- `_norm360(a) = a % 360` on Python floats: the representative in `[0, 360)`. -/
def norm360 (a : ℚ) : ℚ := a - 360 * ⌊a / 360⌋

/-- `_angle_in_sector(angle, start, end)` from `planning_path.py`. -/
def angleInSector (angle start fin : ℚ) : Bool :=
  let a := norm360 angle
  let s := norm360 start
  let e := norm360 fin
  if s ≤ e then decide (s ≤ a ∧ a ≤ e)
  else decide (s ≤ a ∨ a ≤ e)

/-- The state of a `SimpleReactivePlanner` (configuration plus the mutable
`history` deque — oldest first — and `last_action`). -/
structure Planner where
  safeDist : ℚ
  fovStart : ℚ
  fovEnd : ℚ
  res : ℚ
  minGap : ℤ
  forwardThresh : ℚ
  hyst : ℕ
  history : List Action
  lastAction : Action
deriving DecidableEq, Repr

/-- `SimpleReactivePlanner.__init__`.  The only statement of the constructor
that can raise is `min_gap_deg // resolution_deg` when `resolution_deg = 0`
(`ZeroDivisionError`); no configuration validation is performed. -/
def mkPlanner (safeDist fovMin fovMax res minGapDeg forwardThresh : ℚ)
    (hystLen : ℕ) : Except PyError Planner :=
  if res = 0 then Except.error PyError.zeroDivisionError
  else Except.ok
    { safeDist := safeDist
      fovStart := norm360 fovMin
      fovEnd := norm360 fovMax
      res := res
      minGap := max 1 ⌊minGapDeg / res⌋
      forwardThresh := forwardThresh
      hyst := hystLen
      history := []
      lastAction := Action.STOP }

/-- `n_bins = int(360 // self.res)`; Python builds `[False] * n_bins`, which is
empty when `n_bins ≤ 0`, matching `Int.toNat`. -/
def nBins (p : Planner) : ℕ := (⌊(360 : ℚ) / p.res⌋).toNat

/-- `idx = int(_norm360(ang) // self.res) % n_bins` (for a positive bin count
Python `%` agrees with `Int.emod`). -/
def binIdx (p : Planner) (ang : ℚ) : ℕ :=
  ((⌊norm360 ang / p.res⌋) % (nBins p : ℤ)).toNat

/-- One iteration of the loop in `build_occupancy_by_angle`. -/
def occStep (p : Planner) (blocked : List Bool) (pt : ℚ × ℚ) : List Bool :=
  if pt.2 ≤ 0 then blocked
  else if pt.2 / 1000 ≤ p.safeDist then blocked.set (binIdx p pt.1) true
  else blocked

/-- `SimpleReactivePlanner.build_occupancy_by_angle`. -/
def buildOccupancy (p : Planner) (scan : List (ℚ × ℚ)) : List Bool :=
  scan.foldl (occStep p) (List.replicate (nBins p) false)

/-- `SimpleReactivePlanner.extract_fov_bins`. -/
def extractFovBins (p : Planner) : List ℕ :=
  (List.range (nBins p)).filter
    (fun i => angleInSector ((i : ℚ) * p.res) p.fovStart p.fovEnd)

/-- The four loop variables of `find_largest_gap`
(`best_len`, `best_range`, `cur_len`, `cur_start`). -/
structure GapState where
  bestLen : ℕ
  bestRange : Option (ℕ × ℕ)
  curLen : ℕ
  curStart : ℕ
deriving DecidableEq, Repr

/-- One iteration of the `for i, val in enumerate(seq)` loop of
`find_largest_gap` (`b = true` means the bin is blocked, i.e. `val == 1`). -/
def gapStep (i : ℕ) (st : GapState) (b : Bool) : GapState :=
  if b = false then
    if st.curLen = 0 then { st with curStart := i, curLen := 1 }
    else { st with curLen := st.curLen + 1 }
  else
    if st.bestLen < st.curLen then
      { bestLen := st.curLen, bestRange := some (st.curStart, i - 1),
        curLen := 0, curStart := st.curStart }
    else { st with curLen := 0 }

/-- The whole loop of `find_largest_gap`, carrying the running index. -/
def gapLoop : List Bool → ℕ → GapState → GapState
  | [], _, st => st
  | b :: rest, i, st => gapLoop rest (i + 1) (gapStep i st b)

/-- The tail check after the loop of `find_largest_gap`. -/
def finalizeGap (seqLen : ℕ) (st : GapState) : ℕ × Option (ℕ × ℕ) :=
  if st.bestLen < st.curLen then (st.curLen, some (st.curStart, seqLen - 1))
  else (st.bestLen, st.bestRange)

/-- `SimpleReactivePlanner.find_largest_gap`.  Out-of-range indexing
`blocked[i]` is modelled by `getD _ false`; the callers only pass indices
produced by `extract_fov_bins`, which are in range. -/
def findLargestGap (blocked : List Bool) (fovBins : List ℕ) :
    Option (ℕ × ℕ × ℕ) :=
  if fovBins.isEmpty then none
  else
    let seq := fovBins.map (fun i => blocked.getD i false)
    let st := gapLoop seq 0 ⟨0, none, 0, 0⟩
    let fin := finalizeGap seq.length st
    match fin.2 with
    | none => none
    | some r => some (fovBins.getD r.1 0, fovBins.getD r.2 0, fin.1)

/-- `SimpleReactivePlanner.bin_to_angle`. -/
def binToAngle (p : Planner) (binIdx : ℕ) : ℚ :=
  norm360 ((binIdx : ℚ) * p.res + p.res / 2)

/-- The gap computed by one `choose_action` cycle. -/
def gapOf (p : Planner) (scan : List (ℚ × ℚ)) : Option (ℕ × ℕ × ℕ) :=
  findLargestGap (buildOccupancy p scan) (extractFovBins p)

/-- The raw (pre-hysteresis) action of one `choose_action` cycle
(lines 114–140 of `planning_path.py`). -/
def rawAction (p : Planner) (scan : List (ℚ × ℚ)) : Action :=
  match gapOf p scan with
  | none => Action.STOP
  | some g =>
    if (g.2.2 : ℤ) < p.minGap then Action.STOP
    else
      let mid := (g.1 + g.2.1) / 2
      let t := binToAngle p mid
      let a := norm360 (t + 180) - 180
      if |a| ≤ p.forwardThresh then Action.FORWARD
      else if 0 < a then Action.TURN_RIGHT
      else Action.TURN_LEFT

/-- `deque(maxlen).append`: keep the newest `maxlen` entries, oldest first. -/
def pushHistory (maxlen : ℕ) (h : List Action) (a : Action) : List Action :=
  (h ++ [a]).drop (h.length + 1 - maxlen)

/-- One step of collecting `Counter` keys in first-occurrence order. -/
def occAdd (acc : List Action) (a : Action) : List Action :=
  if a ∈ acc then acc else acc ++ [a]

/-- The keys of `Counter(history)` in first-occurrence order (the iteration
order of a Python `Counter` built from the deque, oldest entry first). -/
def firstOccs (h : List Action) : List Action :=
  h.foldl occAdd []

/-- Keep the key of larger multiplicity in `h`; on a tie keep the earlier
one (Python `heapq.nlargest` is stable). -/
def pickMax (h : List Action) (best : Option Action) (k : Action) : Option Action :=
  match best with
  | none => some k
  | some b => if h.count b < h.count k then some k else best

/-- `Counter(history).most_common(1)[0][0]`: an element of maximal
multiplicity, ties broken in favour of the earliest first occurrence.
`none` exactly on the empty history, where Python raises `IndexError`. -/
def mostCommon1 (h : List Action) : Option Action :=
  (firstOccs h).foldl (pickMax h) none

/-- The `(v, omega)` lookup at the end of `choose_action`. -/
def velocityOf : Action → ℚ × ℚ
  | Action.FORWARD => (15 / 100, 0)
  | Action.TURN_LEFT => (0, 8 / 10)
  | Action.TURN_RIGHT => (0, -(8 / 10))
  | Action.STOP => (0, 0)

/-- The dict returned by `choose_action`. -/
structure Decision where
  action : Action
  targetAngle : Option ℚ
  gapWidthBins : Option ℕ
  v : ℚ
  omega : ℚ
  blockedMap : List Bool
deriving DecidableEq, Repr

/-- `SimpleReactivePlanner.choose_action`.  `last_action` is always one of the
four non-empty action strings, so the Python truthiness test
`self.last_action if self.last_action else action` always yields
`last_action`.  The returned dict recomputes `target_angle` from `gap`
directly (line 171), ignoring the internal `target_angle` variable. -/
def chooseAction (p : Planner) (scan : List (ℚ × ℚ)) :
    Except PyError (Planner × Decision) :=
  let blocked := buildOccupancy p scan
  let gap := findLargestGap blocked (extractFovBins p)
  let action := rawAction p scan
  let h2 := pushHistory p.hyst p.history action
  let stableE : Except PyError Action :=
    if h2.length = p.hyst then
      match mostCommon1 h2 with
      | none => Except.error PyError.indexError
      | some m => Except.ok m
    else Except.ok p.lastAction
  match stableE with
  | Except.error e => Except.error e
  | Except.ok stable =>
    let vw := velocityOf stable
    Except.ok
      ({ p with history := h2, lastAction := stable },
       { action := stable
         targetAngle := gap.map (fun g => binToAngle p ((g.1 + g.2.1) / 2))
         gapWidthBins := gap.map (fun g => g.2.2)
         v := vw.1
         omega := vw.2
         blockedMap := blocked })

/-- Feeding a sequence of scans to one planner, collecting the decisions. -/
def runScans : Planner → List (List (ℚ × ℚ)) →
    Except PyError (Planner × List Decision)
  | p, [] => Except.ok (p, [])
  | p, s :: ss =>
    match chooseAction p s with
    | Except.error e => Except.error e
    | Except.ok pr =>
      match runScans pr.1 ss with
      | Except.error e => Except.error e
      | Except.ok pfrs => Except.ok (pfrs.1, pr.2 :: pfrs.2)

/-! ### Spec-side reference for the gap search (claim C2)

The following definitions transcribe the specification's words for
`largest_gap`: enumerate the maximal runs of consecutive unblocked bins of the
FOV-restricted 0/1 sequence in left-to-right order (a trailing run included),
pick the longest with ties broken in favour of the leftmost, and map its
endpoints back through the FOV bin list. -/

/-- The maximal runs `(start, length)` of `false` (unblocked) entries, in
left-to-right order; `cur` is the run currently open. -/
def freeRunsAux : List Bool → ℕ → Option (ℕ × ℕ) → List (ℕ × ℕ)
  | [], _, none => []
  | [], _, some r => [r]
  | false :: rest, i, none => freeRunsAux rest (i + 1) (some (i, 1))
  | false :: rest, i, some r => freeRunsAux rest (i + 1) (some (r.1, r.2 + 1))
  | true :: rest, i, none => freeRunsAux rest (i + 1) none
  | true :: rest, i, some r => r :: freeRunsAux rest (i + 1) none

/-- All maximal unblocked runs of a 0/1 sequence, leftmost first. -/
def freeRuns (seq : List Bool) : List (ℕ × ℕ) := freeRunsAux seq 0 none

/-- Keep the strictly longer run; on a tie keep the earlier one. -/
def pickRun (best : Option (ℕ × ℕ)) (r : ℕ × ℕ) : Option (ℕ × ℕ) :=
  match best with
  | none => some r
  | some b => if b.2 < r.2 then some r else best

/-- The run of maximal length, ties broken in favour of the leftmost. -/
def leftmostLongest (rs : List (ℕ × ℕ)) : Option (ℕ × ℕ) :=
  rs.foldl pickRun none

/-- The specification's description of `find_largest_gap`. -/
def specLargestGap (blocked : List Bool) (fovBins : List ℕ) :
    Option (ℕ × ℕ × ℕ) :=
  let seq := fovBins.map (fun i => blocked.getD i false)
  (leftmostLongest (freeRuns seq)).map
    (fun r => (fovBins.getD r.1 0, fovBins.getD (r.1 + r.2 - 1) 0, r.2))

/-! ### The signal conditioner (`pre_processing.py`) -/

/-- A `LidarSmoother` instance: configuration plus the persistent EMA state
(`None` before the first call). -/
structure LidarSmoother where
  alpha : ℚ
  medWin : ℕ
  state : Option (List ℚ)
  n : ℕ
deriving DecidableEq, Repr

/-- `LidarSmoother.__init__` (no validation; never fails). -/
def mkSmoother (nAngles : ℕ) (alpha : ℚ) (medWin : ℕ) : LidarSmoother :=
  { alpha := alpha, medWin := medWin, state := none, n := nAngles }

/-- The validity filter `d[(d < 100) | (d > 12000) | ~np.isfinite(d)] = nan`;
`none` models a non-finite input sample and the NaN marker. -/
def validFilter (x : Option ℚ) : Option ℚ :=
  match x with
  | none => none
  | some v => if v < 100 ∨ 12000 < v then none else some v

/-- `np.interp` at one query point, over a strictly increasing list of
`(position, value)` sample points (clamped outside the sampled range). -/
def interpAt (x : ℚ) : List (ℚ × ℚ) → ℚ
  | [] => 0
  | [pv] => pv.2
  | p1 :: p2 :: rest =>
    if x ≤ p1.1 then p1.2
    else if x ≤ p2.1 then
      p1.2 + (p2.2 - p1.2) * (x - p1.1) / (p2.1 - p1.1)
    else interpAt x (p2 :: rest)

/-- The valid samples `(index, value)` in ascending index order
(`np.flatnonzero(~isn)` paired with `d[~isn]`). -/
def validPairsAux : ℕ → List (Option ℚ) → List (ℚ × ℚ)
  | _, [] => []
  | i, none :: rest => validPairsAux (i + 1) rest
  | i, some v :: rest => ((i : ℚ), v) :: validPairsAux (i + 1) rest

/-- `d[isn] = np.interp(np.flatnonzero(isn), np.flatnonzero(~isn), d[~isn])`:
replace each NaN sample by interpolation over the valid ones. -/
def fillNansAux (vp : List (ℚ × ℚ)) : ℕ → List (Option ℚ) → List ℚ
  | _, [] => []
  | i, some v :: rest => v :: fillNansAux vp (i + 1) rest
  | i, none :: rest => interpAt (i : ℚ) vp :: fillNansAux vp (i + 1) rest

/-- `np.median` of an odd-length window: the middle element after sorting. -/
def medianOf (l : List ℚ) : ℚ :=
  (l.insertionSort (fun a b => a ≤ b)).getD (l.length / 2) 0

/-- `median_filter_1d` from `pre_processing.py`: force the window odd
(`k = max(1, k | 1)`), edge-pad by `k // 2`, and take the running median. -/
def medianFilter (x : List ℚ) (k0 : ℕ) : List ℚ :=
  let k := max 1 (k0 ||| 1)
  let pad := k / 2
  let xp := List.replicate pad (x.headD 0) ++ x ++ List.replicate pad (x.getLastD 0)
  (List.range x.length).map (fun i => medianOf ((xp.drop i).take k))

/-- Steps 1–3 of `LidarSmoother.__call__` (validity filter, NaN fill, spatial
median).  `np.interp` raises `ValueError` when every sample is NaN, and
`np.pad(mode=edge)` raises `ValueError` on an empty input. -/
def filteredProfile (medWin : ℕ) (dIn : List (Option ℚ)) :
    Except PyError (List ℚ) :=
  let d1 := dIn.map validFilter
  let vp := validPairsAux 0 d1
  if d1.any (fun o => o.isNone) ∧ vp = [] then Except.error PyError.valueError
  else if dIn.isEmpty then Except.error PyError.valueError
  else Except.ok (medianFilter (fillNansAux vp 0 d1) medWin)

/-- `LidarSmoother.__call__`: filter, then blend with the persistent state
(`state' = alpha * filtered + (1 - alpha) * state`; on the first call the
filtered profile is stored directly). -/
def smootherCall (sm : LidarSmoother) (dIn : List (Option ℚ)) :
    Except PyError (LidarSmoother × List ℚ) :=
  match filteredProfile sm.medWin dIn with
  | Except.error e => Except.error e
  | Except.ok f =>
    match sm.state with
    | none => Except.ok ({ sm with state := some f }, f)
    | some s =>
      let r := List.zipWith (fun fv sv => sm.alpha * fv + (1 - sm.alpha) * sv) f s
      Except.ok ({ sm with state := some r }, r)

/-! ### Derived forms and concrete inputs used by the theorems -/

/-- The stable action computed by the hysteresis block of `choose_action`
(lines 142–153), as a total function: when the freshly-appended history is
full, the majority vote; otherwise the previous stable action. -/
def stableOf (p : Planner) (scan : List (ℚ × ℚ)) : Action :=
  let h2 := pushHistory p.hyst p.history (rawAction p scan)
  if h2.length = p.hyst then (mostCommon1 h2).getD p.lastAction
  else p.lastAction

/-- The length of an optional run (`0` for `none`). -/
def optLen : Option (ℕ × ℕ) → ℕ
  | none => 0
  | some r => r.2

/-- Translate a `(start, length)` run into the `(best_len, best_range)` pair
the loop of `find_largest_gap` keeps (`best_range` stores
`(start, start + length - 1)`). -/
def asLoopRes : Option (ℕ × ℕ) → ℕ × Option (ℕ × ℕ)
  | none => (0, none)
  | some r => (r.2, some (r.1, r.1 + r.2 - 1))

/-- The planner built by `SimpleReactivePlanner()` with all defaults
(`safe_dist=0.5`, `fov=[-90,90]`, `resolution_deg=1`, `min_gap_deg=10`,
`forward_threshold_deg=8`, `hysteresis_len=3`). -/
def defaultPlanner : Planner :=
  { safeDist := 1 / 2, fovStart := 270, fovEnd := 90, res := 1, minGap := 10,
    forwardThresh := 8, hyst := 3, history := [], lastAction := Action.STOP }

/-- A full 360-point scan with every sample at 5000 mm (nothing blocked). -/
def allClearScan : List (ℚ × ℚ) :=
  (List.range 360).map (fun i => ((i : ℚ), 5000))

/-- A scan that blocks every default-FOV bin except bin 0: returns at 400 mm
at the angles 1°–90° and 270°–359°. -/
def narrowScan : List (ℚ × ℚ) :=
  ((List.range 90).map (fun i => ((i : ℚ) + 1, (400 : ℚ)))) ++
  ((List.range 90).map (fun i => ((270 : ℚ) + (i : ℚ), (400 : ℚ))))

/-- A small planner used by concrete instantiations: 90° bins, default FOV,
`min_gap_deg=10` (hence `min_gap = 1` bin), hysteresis length 1. -/
def wPlanner : Planner :=
  { safeDist := 1 / 2, fovStart := 270, fovEnd := 90, res := 90, minGap := 1,
    forwardThresh := 8, hyst := 1, history := [], lastAction := Action.STOP }

/-- A scan blocking all three FOV bins of `wPlanner` (angles 0°, 90°, 270°). -/
def wBlockAll : List (ℚ × ℚ) := [(0, 400), (90, 400), (270, 400)]

/-- Like `wPlanner` but with hysteresis length 2 and a full all-STOP
history, for exercising the noise-rejection property. -/
def nPlanner : Planner :=
  { safeDist := 1 / 2, fovStart := 270, fovEnd := 90, res := 90, minGap := 1,
    forwardThresh := 8, hyst := 2, history := [Action.STOP, Action.STOP],
    lastAction := Action.STOP }

/-- Like `wPlanner` but with hysteresis length 3, used for the repeated
all-clear-scan scenario. -/
def c4Planner : Planner :=
  { safeDist := 1 / 2, fovStart := 270, fovEnd := 90, res := 90, minGap := 1,
    forwardThresh := 8, hyst := 3, history := [], lastAction := Action.STOP }

/-- A scan whose samples all lie at 5000 mm (far away, nothing blocked). -/
def c4Scan : List (ℚ × ℚ) := [(0, 5000)]

/-- The decision an all-clear cycle of `c4Planner` produces: the whole FOV is
one free run over bins `[0, 1, 3]`, the gap midpoint is computed as
`(0 + 3) // 2 = 1`, whose centre angle is 135° — pointing sideways-backwards
although the scan is all clear. -/
def c4D (act : Action) : Decision :=
  { action := act, targetAngle := some 135, gapWidthBins := some 3,
    v := (velocityOf act).1, omega := (velocityOf act).2,
    blockedMap := [false, false, false, false] }

/-- Like `wPlanner` but with a 2-bin minimum gap (`min_gap_deg = 180` at 90°
resolution). -/
def c9Planner : Planner :=
  { safeDist := 1 / 2, fovStart := 270, fovEnd := 90, res := 90, minGap := 2,
    forwardThresh := 8, hyst := 1, history := [], lastAction := Action.STOP }

/-- A scan leaving only the single FOV bin 0 free (400 mm returns at 90° and
270°), so the largest gap is 1 bin wide — below `c9Planner`'s minimum. -/
def c9Scan : List (ℚ × ℚ) := [(90, 400), (270, 400)]

/-- A fresh 2-bin conditioner with α = 1/2 and a window of 1. -/
def c6Smoother : LidarSmoother := { alpha := 1 / 2, medWin := 1, state := none, n := 2 }

/-- The same conditioner after a first cycle left the state `[100, 100]`. -/
def c6Smoother2 : LidarSmoother :=
  { alpha := 1 / 2, medWin := 1, state := some [100, 100], n := 2 }

/-- A two-sample all-valid input profile. -/
def c6Input : List (Option ℚ) := [some 200, some 300]

/-- Decidable equality for `Except`, so that concrete runs of the embedded
code can be checked by `decide`. -/
instance {ε α : Type} [DecidableEq ε] [DecidableEq α] :
    DecidableEq (Except ε α) := fun x y =>
  match x, y with
  | Except.error a, Except.error b =>
    if h : a = b then Decidable.isTrue (congrArg Except.error h)
    else Decidable.isFalse (fun hc => h (Except.error.inj hc))
  | Except.ok a, Except.ok b =>
    if h : a = b then Decidable.isTrue (congrArg Except.ok h)
    else Decidable.isFalse (fun hc => h (Except.ok.inj hc))
  | Except.error _, Except.ok _ => Decidable.isFalse (fun hc => by injection hc)
  | Except.ok _, Except.error _ => Decidable.isFalse (fun hc => by injection hc)

/-! ## Lemmas about the action history and the majority vote -/

theorem pushHistory_ne_nil (maxlen : ℕ) (h : List Action) (a : Action)
    (hm : 1 ≤ maxlen) : pushHistory maxlen h a ≠ [] := by
  intro hc
  rw [pushHistory, List.drop_eq_nil_iff, List.length_append] at hc
  simp at hc
  omega

theorem mem_pushHistory {maxlen : ℕ} {h : List Action} {a x : Action}
    (hx : x ∈ pushHistory maxlen h a) : x ∈ h ∨ x = a := by
  rw [pushHistory] at hx
  have := List.mem_of_mem_drop hx
  rcases List.mem_append.mp this with h1 | h2
  · exact Or.inl h1
  · exact Or.inr (List.mem_singleton.mp h2)

theorem occAdd_ne_nil (acc : List Action) (a : Action) : occAdd acc a ≠ [] := by
  rw [occAdd]
  split
  · rename_i hmem
    intro hc
    subst hc
    exact absurd hmem (List.not_mem_nil a)
  · simp

theorem foldl_occAdd_ne_nil (l : List Action) (acc : List Action)
    (hacc : acc ≠ []) : l.foldl occAdd acc ≠ [] := by
  induction l generalizing acc with
  | nil => exact hacc
  | cons x t ih =>
    rw [List.foldl_cons]
    apply ih
    rw [occAdd]
    split
    · exact hacc
    · simp

theorem firstOccs_ne_nil {h : List Action} (hne : h ≠ []) : firstOccs h ≠ [] := by
  match h with
  | [] => exact absurd rfl hne
  | x :: t =>
    rw [firstOccs, List.foldl_cons]
    apply foldl_occAdd_ne_nil
    rw [occAdd]
    simp

theorem foldl_pickMax_some (h : List Action) (l : List Action) (b : Action) :
    ∃ m, l.foldl (pickMax h) (some b) = some m := by
  induction l generalizing b with
  | nil => exact ⟨b, rfl⟩
  | cons k t ih =>
    rw [List.foldl_cons, pickMax]
    split
    · exact ih k
    · exact ih b

theorem mostCommon1_isSome {h : List Action} (hne : h ≠ []) :
    ∃ m, mostCommon1 h = some m := by
  rw [mostCommon1]
  match hfo : firstOccs h with
  | [] => exact absurd hfo (firstOccs_ne_nil hne)
  | k :: t =>
    rw [List.foldl_cons]
    exact foldl_pickMax_some h t k

theorem foldl_occAdd_all_eq {a : Action} :
    ∀ (l acc : List Action), (∀ x ∈ l, x = a) → a ∈ acc →
      l.foldl occAdd acc = acc := by
  intro l
  induction l with
  | nil => intro acc _ _; rfl
  | cons x t ih =>
    intro acc hall hmem
    have hx : x = a := hall x (List.mem_cons_self x t)
    subst hx
    rw [List.foldl_cons, occAdd, if_pos hmem]
    exact ih acc (fun y hy => hall y (List.mem_cons_of_mem x hy)) hmem

theorem firstOccs_all_eq {h : List Action} {a : Action}
    (hall : ∀ x ∈ h, x = a) (hne : h ≠ []) : firstOccs h = [a] := by
  match h with
  | [] => exact absurd rfl hne
  | x :: t =>
    have hx : x = a := hall x (List.mem_cons_self x t)
    rw [firstOccs, List.foldl_cons, hx]
    have hstep : occAdd [] a = [a] := by rw [occAdd]; simp
    rw [hstep]
    exact foldl_occAdd_all_eq t [a]
      (fun y hy => hall y (List.mem_cons_of_mem x hy)) (List.mem_singleton.mpr rfl)

theorem mostCommon1_all_eq {h : List Action} {a : Action}
    (hall : ∀ x ∈ h, x = a) (hne : h ≠ []) : mostCommon1 h = some a := by
  rw [mostCommon1, firstOccs_all_eq hall hne]
  rfl

/-! ## The shape of one `choose_action` cycle -/

theorem rawAction_update (p : Planner) (X : List Action) (Y : Action)
    (s : List (ℚ × ℚ)) :
    rawAction { p with history := X, lastAction := Y } s = rawAction p s := rfl

theorem extractFovBins_update (p : Planner) (X : List Action) (Y : Action) :
    extractFovBins { p with history := X, lastAction := Y } = extractFovBins p := rfl

theorem buildOccupancy_update (p : Planner) (X : List Action) (Y : Action)
    (s : List (ℚ × ℚ)) :
    buildOccupancy { p with history := X, lastAction := Y } s = buildOccupancy p s := rfl

theorem chooseAction_eq (p : Planner) (scan : List (ℚ × ℚ)) (h1 : 1 ≤ p.hyst) :
    chooseAction p scan = Except.ok
      ({ p with history := pushHistory p.hyst p.history (rawAction p scan),
                lastAction := stableOf p scan },
       { action := stableOf p scan,
         targetAngle := (gapOf p scan).map (fun g => binToAngle p ((g.1 + g.2.1) / 2)),
         gapWidthBins := (gapOf p scan).map (fun g => g.2.2),
         v := (velocityOf (stableOf p scan)).1,
         omega := (velocityOf (stableOf p scan)).2,
         blockedMap := buildOccupancy p scan }) := by
  have hne := pushHistory_ne_nil p.hyst p.history (rawAction p scan) h1
  unfold chooseAction stableOf gapOf
  by_cases hfull : (pushHistory p.hyst p.history (rawAction p scan)).length = p.hyst
  · obtain ⟨m, hm⟩ := mostCommon1_isSome hne
    simp only [hfull, if_true, hm, Option.getD_some]
  · simp only [hfull, if_false]

/-! ## An all-blocked field of view yields no gap and a STOP cycle -/

theorem gapStep_true_zero (i : ℕ) (st : GapState) (h0 : st.curLen = 0) :
    gapStep i st true = st := by
  cases st with
  | mk bl br cl cs =>
    simp only at h0
    subst h0
    rw [gapStep]
    simp

theorem gapLoop_all_true : ∀ (seq : List Bool) (i : ℕ) (st : GapState),
    (∀ b ∈ seq, b = true) → st.curLen = 0 → gapLoop seq i st = st := by
  intro seq
  induction seq with
  | nil => intro i st _ _; rfl
  | cons b rest ih =>
    intro i st hall h0
    have hb : b = true := hall b (List.mem_cons_self b rest)
    subst hb
    rw [gapLoop, gapStep_true_zero i st h0]
    exact ih (i + 1) st (fun x hx => hall x (List.mem_cons_of_mem true hx)) h0

theorem findLargestGap_all_blocked {blocked : List Bool} {fovBins : List ℕ}
    (hall : ∀ i ∈ fovBins, blocked.getD i false = true) :
    findLargestGap blocked fovBins = none := by
  rw [findLargestGap]
  by_cases hemp : fovBins.isEmpty
  · rw [if_pos hemp]
  · rw [if_neg hemp]
    have hseq : ∀ b ∈ fovBins.map (fun i => blocked.getD i false), b = true := by
      intro b hb
      obtain ⟨i, hi, rfl⟩ := List.mem_map.mp hb
      exact hall i hi
    simp only [gapLoop_all_true _ 0 ⟨0, none, 0, 0⟩ hseq rfl]
    rfl

theorem rawAction_of_gap_none {p : Planner} {scan : List (ℚ × ℚ)}
    (hgap : gapOf p scan = none) : rawAction p scan = Action.STOP := by
  rw [rawAction, hgap]

theorem stableOf_stop {p : Planner} {scan : List (ℚ × ℚ)} (h1 : 1 ≤ p.hyst)
    (hraw : rawAction p scan = Action.STOP)
    (hla : p.lastAction = Action.STOP)
    (hh : ∀ a ∈ p.history, a = Action.STOP) :
    stableOf p scan = Action.STOP := by
  unfold stableOf
  simp only [hraw]
  have hall2 : ∀ a ∈ pushHistory p.hyst p.history Action.STOP, a = Action.STOP := by
    intro a ha
    rcases mem_pushHistory ha with h | h
    · exact hh a h
    · exact h
  by_cases hfull : (pushHistory p.hyst p.history Action.STOP).length = p.hyst
  · rw [if_pos hfull,
      mostCommon1_all_eq hall2 (pushHistory_ne_nil _ _ _ h1)]
    rfl
  · rw [if_neg hfull]
    exact hla

theorem c1_aux : ∀ (scans : List (List (ℚ × ℚ))) (p : Planner),
    1 ≤ p.hyst → p.lastAction = Action.STOP →
    (∀ a ∈ p.history, a = Action.STOP) →
    (∀ s ∈ scans, ∀ i ∈ extractFovBins p, (buildOccupancy p s).getD i false = true) →
    ∃ pf rs, runScans p scans = Except.ok (pf, rs) ∧ rs.length = scans.length ∧
      ∀ r ∈ rs, r.action = Action.STOP ∧ r.v = 0 ∧ r.omega = 0 := by
  intro scans
  induction scans with
  | nil =>
    intro p _ _ _ _
    exact ⟨p, [], rfl, rfl, by simp⟩
  | cons s ss ih =>
    intro p h1 hla hh hsc
    have hblocked := hsc s (List.mem_cons_self s ss)
    have hgap : gapOf p s = none := findLargestGap_all_blocked hblocked
    have hraw : rawAction p s = Action.STOP := rawAction_of_gap_none hgap
    have hst : stableOf p s = Action.STOP := stableOf_stop h1 hraw hla hh
    obtain ⟨pf, rs, hrun, hlen, hall⟩ :=
      ih { p with history := pushHistory p.hyst p.history (rawAction p s),
                  lastAction := stableOf p s }
        h1 hst
        (by
          intro a ha
          rcases mem_pushHistory ha with h | h
          · exact hh a h
          · rw [hraw] at h
            exact h)
        (by
          intro s' hs' i hi
          rw [extractFovBins_update] at hi
          rw [buildOccupancy_update]
          exact hsc s' (List.mem_cons_of_mem s hs') i hi)
    refine ⟨pf,
      { action := stableOf p s,
        targetAngle := (gapOf p s).map (fun g => binToAngle p ((g.1 + g.2.1) / 2)),
        gapWidthBins := (gapOf p s).map (fun g => g.2.2),
        v := (velocityOf (stableOf p s)).1,
        omega := (velocityOf (stableOf p s)).2,
        blockedMap := buildOccupancy p s } :: rs, ?_, ?_, ?_⟩
    · rw [runScans, chooseAction_eq p s h1]
      dsimp only
      rw [hrun]
    · simp [hlen]
    · intro r hr
      rcases List.mem_cons.mp hr with h | h
      · subst h
        refine ⟨hst, ?_, ?_⟩ <;> rw [hst] <;> rfl
      · exact hall r h

/-- C1: for a freshly constructed planner with positive resolution at most
360° and hysteresis length at least 1, a sequence of scans in which every
FOV bin is blocked makes every `choose_action` call return STOP with zero
linear and angular velocity, and no call fails. -/
theorem c1_all_blocked_always_stop :
    ∀ (safe fovMin fovMax res minGapDeg fthresh : ℚ) (hystLen : ℕ) (p : Planner),
      mkPlanner safe fovMin fovMax res minGapDeg fthresh hystLen = Except.ok p →
      0 < res → res ≤ 360 → 1 ≤ hystLen →
      ∀ scans : List (List (ℚ × ℚ)),
        (∀ s ∈ scans, ∀ i ∈ extractFovBins p,
          (buildOccupancy p s).getD i false = true) →
        ∃ pf rs, runScans p scans = Except.ok (pf, rs) ∧
          rs.length = scans.length ∧
          ∀ r ∈ rs, r.action = Action.STOP ∧ r.v = 0 ∧ r.omega = 0 := by
  intro safe fovMin fovMax res minGapDeg fthresh hystLen p hmk hres _ hhy scans hsc
  rw [mkPlanner, if_neg (ne_of_gt hres)] at hmk
  injection hmk with hp
  subst hp
  exact c1_aux scans _ hhy rfl (by simp) hsc

/-! ## Concrete evaluations at the small witness planner

`Rat` arithmetic does not reduce in the kernel, so concrete values of the
embedded functions are established once by `norm_num` and reused. -/

theorem wNBins : nBins wPlanner = 4 := by
  norm_num [nBins, wPlanner, Int.toNat_ofNat]
  decide

theorem wFov : extractFovBins wPlanner = [0, 1, 3] := by
  norm_num [extractFovBins, nBins, wPlanner, Int.toNat_ofNat, List.range_succ,
    angleInSector, norm360, List.filter]

theorem wOccEmpty : buildOccupancy wPlanner [] = [false, false, false, false] := by
  norm_num [buildOccupancy, nBins, wPlanner, Int.toNat_ofNat, List.replicate]

theorem wOccBlockAll : buildOccupancy wPlanner wBlockAll = [true, true, false, true] := by
  norm_num [buildOccupancy, wBlockAll, occStep, binIdx, norm360, nBins, wPlanner,
    Int.toNat_ofNat, List.replicate, List.set]

theorem mkPlanner_w : mkPlanner (1/2) (-90) 90 90 10 8 1 = Except.ok wPlanner := by
  norm_num [mkPlanner, wPlanner, norm360]

theorem wGapEmpty : gapOf wPlanner [] = some (0, 3, 3) := by
  rw [gapOf, wOccEmpty, wFov]
  rfl

theorem wRawEmpty : rawAction wPlanner [] = Action.TURN_RIGHT := by
  rw [rawAction, wGapEmpty]
  norm_num [binToAngle, norm360, wPlanner]

theorem wBlockAll_all_blocked :
    ∀ s ∈ [wBlockAll], ∀ i ∈ extractFovBins wPlanner,
      (buildOccupancy wPlanner s).getD i false = true := by
  intro s hs i hi
  rw [List.mem_singleton] at hs
  subst hs
  rw [wFov] at hi
  rw [wOccBlockAll]
  fin_cases hi <;> rfl

/-- Witness for C1 at a concrete planner (90° bins, default FOV, hysteresis
1) and one scan that blocks all three FOV bins. -/
theorem c1_witness :
    (mkPlanner (1/2) (-90) 90 90 10 8 1 = Except.ok wPlanner ∧
      (0:ℚ) < 90 ∧ (90:ℚ) ≤ 360 ∧ 1 ≤ 1 ∧
      (∀ s ∈ [wBlockAll], ∀ i ∈ extractFovBins wPlanner,
        (buildOccupancy wPlanner s).getD i false = true)) ∧
    ∃ pf rs, runScans wPlanner [wBlockAll] = Except.ok (pf, rs) ∧
      rs.length = [wBlockAll].length ∧
      ∀ r ∈ rs, r.action = Action.STOP ∧ r.v = 0 ∧ r.omega = 0 :=
  ⟨⟨mkPlanner_w, by decide, by decide, by decide, wBlockAll_all_blocked⟩,
   c1_all_blocked_always_stop (1/2) (-90) 90 90 10 8 1 wPlanner mkPlanner_w
     (by decide) (by decide) (by decide) [wBlockAll] wBlockAll_all_blocked⟩

/-! ## The gap loop agrees with the specification's run description -/

theorem optLen_none : optLen none = 0 := rfl

theorem optLen_some (r : ℕ × ℕ) : optLen (some r) = r.2 := rfl

theorem asLoopRes_none : asLoopRes none = (0, none) := rfl

theorem asLoopRes_some (r : ℕ × ℕ) :
    asLoopRes (some r) = (r.2, some (r.1, r.1 + r.2 - 1)) := rfl

theorem gapLoop_sim : ∀ (seq : List Bool) (i : ℕ) (best cur : Option (ℕ × ℕ))
    (st : GapState),
    st.bestLen = optLen best →
    st.bestRange = (asLoopRes best).2 →
    st.curLen = optLen cur →
    (∀ r, cur = some r → st.curStart = r.1 ∧ r.1 + r.2 = i ∧ 1 ≤ r.2) →
    (∀ r, best = some r → 1 ≤ r.2) →
    finalizeGap (i + seq.length) (gapLoop seq i st) =
      asLoopRes (List.foldl pickRun best (freeRunsAux seq i cur)) := by
  intro seq
  induction seq with
  | nil =>
    intro i best cur st h1 h2 h3 h4 h5
    cases cur with
    | none =>
      simp only [gapLoop, freeRunsAux, List.foldl_nil, List.length_nil]
      rw [finalizeGap, h3, optLen_none, if_neg (Nat.not_lt_zero _), h1, h2]
      cases best <;> rfl
    | some r =>
      obtain ⟨hcs, hie, hr2⟩ := h4 r rfl
      simp only [gapLoop, freeRunsAux, List.foldl_cons, List.foldl_nil,
        List.length_nil]
      rw [finalizeGap, h3, optLen_some, h1]
      have harith : i + 0 - 1 = r.1 + r.2 - 1 := by omega
      cases best with
      | none =>
        rw [if_pos (by rw [optLen_none]; omega), hcs, harith]
        rfl
      | some b =>
        by_cases hbr : b.2 < r.2
        · rw [if_pos (by rw [optLen_some]; exact hbr), hcs, harith]
          have hpick : pickRun (some b) r = some r := by
            rw [pickRun]; exact if_pos hbr
          rw [hpick]
          rfl
        · rw [if_neg (by rw [optLen_some]; exact hbr)]
          have hpick : pickRun (some b) r = some b := by
            rw [pickRun]; exact if_neg hbr
          rw [hpick, h2]
          rfl
  | cons b rest ih =>
    intro i best cur st h1 h2 h3 h4 h5
    simp only [gapLoop, List.length_cons]
    have harith : i + (rest.length + 1) = (i + 1) + rest.length := by omega
    rw [harith]
    cases b with
    | false =>
      cases cur with
      | none =>
        rw [optLen_none] at h3
        have hstep : gapStep i st false =
            { st with curStart := i, curLen := 1 } := by
          rw [gapStep]
          simp [h3]
        rw [hstep]
        simp only [freeRunsAux]
        exact ih (i + 1) best (some (i, 1)) _ h1 h2 rfl
          (by
            intro r hr
            injection hr with h
            subst h
            exact ⟨rfl, rfl, le_refl 1⟩)
          h5
      | some r =>
        obtain ⟨hcs, hie, hr2⟩ := h4 r rfl
        rw [optLen_some] at h3
        have hne : ¬ st.curLen = 0 := by omega
        have hstep : gapStep i st false = { st with curLen := st.curLen + 1 } := by
          rw [gapStep]
          simp [hne]
        rw [hstep]
        simp only [freeRunsAux]
        exact ih (i + 1) best (some (r.1, r.2 + 1)) _ h1 h2
          (by rw [optLen_some]; dsimp only; omega)
          (by
            intro r' hr'
            injection hr' with h
            subst h
            exact ⟨hcs, by omega, by omega⟩)
          h5
    | true =>
      cases cur with
      | none =>
        rw [optLen_none] at h3
        rw [gapStep_true_zero i st h3]
        simp only [freeRunsAux]
        exact ih (i + 1) best none st h1 h2 (by rw [optLen_none]; exact h3)
          (by intro r hr; cases hr) h5
      | some r =>
        obtain ⟨hcs, hie, hr2⟩ := h4 r rfl
        rw [optLen_some] at h3
        simp only [freeRunsAux, List.foldl_cons]
        by_cases hlt : st.bestLen < st.curLen
        · have hstep : gapStep i st true =
              { bestLen := st.curLen, bestRange := some (st.curStart, i - 1),
                curLen := 0, curStart := st.curStart } := by
            rw [gapStep]
            simp [hlt]
          rw [hstep]
          have hpick : pickRun best r = some r := by
            cases best with
            | none => rfl
            | some bb =>
              rw [pickRun]
              refine if_pos ?_
              rw [h1, optLen_some] at hlt
              omega
          rw [hpick]
          refine ih (i + 1) (some r) none _ ?_ ?_ rfl (by intro r' hr'; cases hr') ?_
          · rw [optLen_some]; exact h3
          · have harith2 : i - 1 = r.1 + r.2 - 1 := by omega
            rw [asLoopRes_some]
            dsimp only
            rw [hcs, harith2]
          · intro r' hr'
            injection hr' with h
            subst h
            exact hr2
        · have hstep : gapStep i st true = { st with curLen := 0 } := by
            rw [gapStep]
            simp [hlt]
          rw [hstep]
          have hpick : pickRun best r = best := by
            cases best with
            | none =>
              exfalso
              rw [h1, optLen_none] at hlt
              omega
            | some bb =>
              rw [pickRun]
              refine if_neg ?_
              rw [h1, optLen_some] at hlt
              omega
          rw [hpick]
          exact ih (i + 1) best none _ h1 h2 rfl (by intro r' hr'; cases hr') h5

theorem findLargestGap_eq_spec (blocked : List Bool) (fovBins : List ℕ) :
    findLargestGap blocked fovBins = specLargestGap blocked fovBins := by
  rw [findLargestGap, specLargestGap]
  by_cases hemp : fovBins.isEmpty
  · rw [if_pos hemp]
    have hnil : fovBins = [] := List.isEmpty_iff.mp hemp
    subst hnil
    rfl
  · rw [if_neg hemp]
    have hsim := gapLoop_sim (fovBins.map fun i => blocked.getD i false) 0
      none none ⟨0, none, 0, 0⟩ rfl rfl rfl
      (by intro r hr; cases hr) (by intro r hr; cases hr)
    rw [Nat.zero_add] at hsim
    dsimp only
    rw [hsim]
    rw [show List.foldl pickRun none
          (freeRunsAux (fovBins.map fun i => blocked.getD i false) 0 none) =
        leftmostLongest (freeRuns (fovBins.map fun i => blocked.getD i false))
      from rfl]
    cases hll : leftmostLongest (freeRuns (fovBins.map fun i => blocked.getD i false)) with
    | none => rfl
    | some r => rfl

theorem foldl_pickRun_some (rs : List (ℕ × ℕ)) (b : ℕ × ℕ) :
    ∃ m, rs.foldl pickRun (some b) = some m := by
  induction rs generalizing b with
  | nil => exact ⟨b, rfl⟩
  | cons r t ih =>
    rw [List.foldl_cons, pickRun]
    split
    · exact ih r
    · exact ih b

theorem leftmostLongest_eq_none_iff (rs : List (ℕ × ℕ)) :
    leftmostLongest rs = none ↔ rs = [] := by
  constructor
  · intro h
    cases rs with
    | nil => rfl
    | cons r t =>
      rw [leftmostLongest, List.foldl_cons] at h
      obtain ⟨m, hm⟩ := foldl_pickRun_some t r
      rw [show pickRun none r = some r from rfl] at h
      rw [hm] at h
      cases h
  · intro h
    subst h
    rfl

theorem freeRunsAux_some_ne_nil :
    ∀ (seq : List Bool) (i : ℕ) (r : ℕ × ℕ), freeRunsAux seq i (some r) ≠ [] := by
  intro seq
  induction seq with
  | nil => intro i r h; cases h
  | cons b rest ih =>
    intro i r
    cases b with
    | false => exact ih (i + 1) (r.1, r.2 + 1)
    | true => intro h; cases h

theorem freeRunsAux_none_eq_nil_iff :
    ∀ (seq : List Bool) (i : ℕ),
      (freeRunsAux seq i none = [] ↔ ∀ b ∈ seq, b = true) := by
  intro seq
  induction seq with
  | nil => intro i; simp [freeRunsAux]
  | cons b rest ih =>
    intro i
    cases b with
    | false =>
      simp only [freeRunsAux]
      constructor
      · intro h
        exact absurd h (freeRunsAux_some_ne_nil rest (i + 1) (i, 1))
      · intro h
        have := h false (List.mem_cons_self false rest)
        cases this
    | true =>
      simp only [freeRunsAux]
      rw [ih (i + 1)]
      constructor
      · intro h x hx
        rcases List.mem_cons.mp hx with hb | hb
        · rw [hb]
        · exact h x hb
      · intro h x hx
        exact h x (List.mem_cons_of_mem true hx)

/-- C2: `find_largest_gap` returns exactly the specification's leftmost
longest run of unblocked FOV bins (trailing run included, endpoints mapped
back to absolute mask-bin indices, width in bins), and it returns `None`
precisely when the FOV bin list is empty or every FOV bin is blocked. -/
theorem c2_find_largest_gap (blocked : List Bool) (fovBins : List ℕ) :
    findLargestGap blocked fovBins = specLargestGap blocked fovBins ∧
    (findLargestGap blocked fovBins = none ↔
      fovBins = [] ∨ ∀ i ∈ fovBins, blocked.getD i false = true) := by
  refine ⟨findLargestGap_eq_spec _ _, ?_⟩
  rw [findLargestGap_eq_spec, specLargestGap]
  constructor
  · intro h
    rw [Option.map_eq_none'] at h
    rw [leftmostLongest_eq_none_iff, freeRuns, freeRunsAux_none_eq_nil_iff] at h
    right
    intro i hi
    exact h (blocked.getD i false) (List.mem_map_of_mem _ hi)
  · intro h
    dsimp only
    rw [Option.map_eq_none', leftmostLongest_eq_none_iff, freeRuns,
      freeRunsAux_none_eq_nil_iff]
    rcases h with h | h
    · subst h
      simp
    · intro x hx
      obtain ⟨i, hi, rfl⟩ := List.mem_map.mp hx
      exact h i hi

/-! ## Hysteresis across consecutive cycles -/

theorem pushHistory_length (H : ℕ) (h : List Action) (a : Action) :
    (pushHistory H h a).length = h.length + 1 - (h.length + 1 - H) := by
  rw [pushHistory, List.length_drop, List.length_append, List.length_cons,
    List.length_nil]

theorem foldl_pushHistory (H : ℕ) :
    ∀ (bs : List Action) (h : List Action), h.length ≤ H →
      List.foldl (pushHistory H) h bs =
        (h ++ bs).drop (h.length + bs.length - H) := by
  intro bs
  induction bs with
  | nil =>
    intro h hle
    simp only [List.foldl_nil, List.append_nil, List.length_nil]
    rw [show h.length + 0 - H = 0 from by omega, List.drop_zero]
  | cons b t ih =>
    intro h hle
    rw [List.foldl_cons]
    have hle1 : (pushHistory H h b).length ≤ H := by
      rw [pushHistory_length]
      omega
    rw [ih _ hle1, pushHistory_length, pushHistory]
    rw [← List.drop_append_of_le_length
      (by rw [List.length_append, List.length_cons, List.length_nil]; omega)]
    rw [List.drop_drop, List.append_assoc, List.singleton_append]
    congr 1
    simp only [List.length_cons]
    omega

theorem foldl_pushHistory_replicate (H : ℕ) (h : List Action) (b : Action)
    (hle : h.length ≤ H) :
    List.foldl (pushHistory H) h (List.replicate H b) = List.replicate H b := by
  rw [foldl_pushHistory H _ h hle, List.length_replicate,
    show h.length + H - H = h.length from by omega]
  exact List.drop_left h (List.replicate H b)

theorem mostCommon1_replicate (H : ℕ) (hH : 1 ≤ H) (b : Action) :
    mostCommon1 (List.replicate H b) = some b :=
  mostCommon1_all_eq (fun _ hx => List.eq_of_mem_replicate hx)
    (by
      intro hc
      have := congrArg List.length hc
      rw [List.length_replicate, List.length_nil] at this
      omega)

theorem firstOccs_replicate_append (k : ℕ) (hk : 1 ≤ k) (a b : Action)
    (hab : b ≠ a) :
    firstOccs (List.replicate k a ++ [b]) = [a, b] := by
  rw [firstOccs, List.foldl_append]
  have h1 : (List.replicate k a).foldl occAdd [] = [a] := by
    obtain ⟨k', rfl⟩ : ∃ k', k = k' + 1 := ⟨k - 1, by omega⟩
    rw [List.replicate_succ, List.foldl_cons,
      show occAdd [] a = [a] from by rw [occAdd]; simp]
    exact foldl_occAdd_all_eq _ [a]
      (fun x hx => List.eq_of_mem_replicate hx) (List.mem_singleton.mpr rfl)
  rw [h1, List.foldl_cons, List.foldl_nil, occAdd,
    if_neg (by simp [hab])]
  rfl

theorem mostCommon1_noise (H : ℕ) (hH : 2 ≤ H) (a b : Action) :
    mostCommon1 (List.replicate (H - 1) a ++ [b]) = some a := by
  by_cases hab : b = a
  · subst hab
    rw [show List.replicate (H - 1) b ++ [b] = List.replicate H b from by
      rw [← List.replicate_succ']
      congr 1
      omega]
    exact mostCommon1_replicate H (by omega) b
  · rw [mostCommon1, firstOccs_replicate_append (H - 1) (by omega) a b hab,
      List.foldl_cons, List.foldl_cons, List.foldl_nil,
      show pickMax (List.replicate (H - 1) a ++ [b]) none a = some a from rfl,
      pickMax]
    have hba : (b == a) = false := by simp [hab]
    have hba2 : (a == b) = false := by simp [Ne.symm hab]
    have hca : (List.replicate (H - 1) a ++ [b]).count a = H - 1 := by
      rw [List.count_append, List.count_replicate_self, List.count_singleton,
        hba]
      simp
    have hcb : (List.replicate (H - 1) a ++ [b]).count b = 1 := by
      rw [List.count_append, List.count_replicate, List.count_singleton, hba2,
        beq_self_eq_true]
      simp
    rw [if_neg (by rw [hca, hcb]; omega)]

theorem runScans_cons {p p' pf : Planner} {d : Decision} {rs : List Decision}
    {s : List (ℚ × ℚ)} {ss : List (List (ℚ × ℚ))}
    (h1 : chooseAction p s = Except.ok (p', d))
    (h2 : runScans p' ss = Except.ok (pf, rs)) :
    runScans p (s :: ss) = Except.ok (pf, d :: rs) := by
  rw [runScans]
  simp only [h1, h2]

theorem runScans_chain : ∀ (scans : List (List (ℚ × ℚ))) (p : Planner),
    1 ≤ p.hyst →
    ∃ la rs,
      runScans p scans = Except.ok
        ({ p with
            history := List.foldl (pushHistory p.hyst) p.history
              (scans.map (rawAction p)),
            lastAction := la }, rs) ∧
      (scans = [] → la = p.lastAction ∧ rs = []) ∧
      (scans ≠ [] → (rs.map Decision.action).getLast? = some la) ∧
      (scans ≠ [] →
        (List.foldl (pushHistory p.hyst) p.history
          (scans.map (rawAction p))).length = p.hyst →
        mostCommon1 (List.foldl (pushHistory p.hyst) p.history
          (scans.map (rawAction p))) = some la) := by
  intro scans
  induction scans with
  | nil =>
    intro p h1
    exact ⟨p.lastAction, [], rfl, fun _ => ⟨rfl, rfl⟩,
      fun hc => absurd rfl hc, fun hc => absurd rfl hc⟩
  | cons s ss ih =>
    intro p h1
    obtain ⟨la, rs, hrun, hnil, hlast, hmaj⟩ :=
      ih { p with history := pushHistory p.hyst p.history (rawAction p s),
                  lastAction := stableOf p s } h1
    refine ⟨la,
      { action := stableOf p s,
        targetAngle := (gapOf p s).map (fun g => binToAngle p ((g.1 + g.2.1) / 2)),
        gapWidthBins := (gapOf p s).map (fun g => g.2.2),
        v := (velocityOf (stableOf p s)).1,
        omega := (velocityOf (stableOf p s)).2,
        blockedMap := buildOccupancy p s } :: rs, ?_, ?_, ?_, ?_⟩
    · exact runScans_cons (chooseAction_eq p s h1) hrun
    · intro hc
      exact absurd hc (List.cons_ne_nil s ss)
    · intro _
      by_cases hss : ss = []
      · subst hss
        obtain ⟨hla, hrs⟩ := hnil rfl
        subst hrs
        have hla' : la = stableOf p s := hla
        rw [hla']
        rfl
      · have hl := hlast hss
        rw [List.map_cons]
        cases hrs : rs.map Decision.action with
        | nil => rw [hrs] at hl; cases hl
        | cons y t =>
          rw [hrs] at hl
          rw [List.getLast?_cons_cons]
          exact hl
    · intro _ hlen
      by_cases hss : ss = []
      · subst hss
        obtain ⟨hla, hrs⟩ := hnil rfl
        have hlen' : (pushHistory p.hyst p.history (rawAction p s)).length = p.hyst :=
          hlen
        obtain ⟨m, hm⟩ := mostCommon1_isSome
          (pushHistory_ne_nil p.hyst p.history (rawAction p s) h1)
        have hst : stableOf p s = m := by
          unfold stableOf
          rw [if_pos hlen', hm]
          rfl
        have hla' : la = stableOf p s := hla
        show mostCommon1 (pushHistory p.hyst p.history (rawAction p s)) = some la
        rw [hm, hla', hst]
      · exact hmaj hss hlen

/-- C3: (a) whenever the freshly-appended history holds exactly `H` entries,
the stable action returned by `choose_action` is the majority vote over that
history; (b) with a full history of `H ≥ 2` equal actions, one deviant raw
cycle leaves the stable action unchanged; (c) `H` consecutive cycles whose
raw action is `b` make the stable action `b`. -/
theorem c3_hysteresis :
    (∀ (p : Planner) (scan : List (ℚ × ℚ)), 1 ≤ p.hyst →
      (pushHistory p.hyst p.history (rawAction p scan)).length = p.hyst →
      ∃ p' r, chooseAction p scan = Except.ok (p', r) ∧
        mostCommon1 (pushHistory p.hyst p.history (rawAction p scan)) =
          some r.action) ∧
    (∀ (p : Planner) (scan : List (ℚ × ℚ)) (a : Action), 2 ≤ p.hyst →
      p.history = List.replicate p.hyst a →
      ∃ p' r, chooseAction p scan = Except.ok (p', r) ∧ r.action = a) ∧
    (∀ (p : Planner) (scans : List (List (ℚ × ℚ))) (b : Action), 1 ≤ p.hyst →
      p.history.length ≤ p.hyst → scans.length = p.hyst →
      (∀ s ∈ scans, rawAction p s = b) →
      ∃ pf rs, runScans p scans = Except.ok (pf, rs) ∧ pf.lastAction = b ∧
        (rs.map Decision.action).getLast? = some b) := by
  refine ⟨?_, ?_, ?_⟩
  · intro p scan h1 hfull
    obtain ⟨m, hm⟩ := mostCommon1_isSome
      (pushHistory_ne_nil p.hyst p.history (rawAction p scan) h1)
    have hst : stableOf p scan = m := by
      unfold stableOf
      rw [if_pos hfull, hm]
      rfl
    refine ⟨_, _, chooseAction_eq p scan h1, ?_⟩
    show mostCommon1 (pushHistory p.hyst p.history (rawAction p scan)) =
      some (stableOf p scan)
    rw [hm, hst]
  · intro p scan a h2 hhist
    have h1 : 1 ≤ p.hyst := by omega
    have hpush : pushHistory p.hyst p.history (rawAction p scan) =
        List.replicate (p.hyst - 1) a ++ [rawAction p scan] := by
      rw [hhist, pushHistory, List.length_replicate,
        show p.hyst + 1 - p.hyst = 1 from by omega]
      obtain ⟨H', hH'⟩ : ∃ H', p.hyst = H' + 1 := ⟨p.hyst - 1, by omega⟩
      rw [hH', List.replicate_succ, List.cons_append, List.drop_succ_cons,
        List.drop_zero, show H' + 1 - 1 = H' from by omega]
    have hst : stableOf p scan = a := by
      unfold stableOf
      rw [hpush]
      have hlen : (List.replicate (p.hyst - 1) a ++ [rawAction p scan]).length
          = p.hyst := by
        rw [List.length_append, List.length_replicate, List.length_cons,
          List.length_nil]
        omega
      rw [if_pos hlen, mostCommon1_noise p.hyst h2 a (rawAction p scan)]
      rfl
    refine ⟨_, _, chooseAction_eq p scan h1, ?_⟩
    show stableOf p scan = a
    exact hst
  · intro p scans b h1 hhl hlen hraw
    obtain ⟨la, rs, hrun, _, hlast, hmaj⟩ := runScans_chain scans p h1
    have hmap : scans.map (rawAction p) = List.replicate p.hyst b :=
      List.eq_replicate_iff.mpr
        ⟨by rw [List.length_map, hlen],
         by
          intro x hx
          obtain ⟨s, hs, rfl⟩ := List.mem_map.mp hx
          exact hraw s hs⟩
    have hF : List.foldl (pushHistory p.hyst) p.history
        (scans.map (rawAction p)) = List.replicate p.hyst b := by
      rw [hmap]
      exact foldl_pushHistory_replicate p.hyst p.history b hhl
    have hne : scans ≠ [] := by
      intro hc
      subst hc
      rw [List.length_nil] at hlen
      omega
    have hla : la = b := by
      have hthis := hmaj hne (by rw [hF, List.length_replicate])
      rw [hF, mostCommon1_replicate p.hyst h1 b] at hthis
      exact (Option.some.inj hthis).symm
    refine ⟨_, rs, hrun, ?_, ?_⟩
    · show la = b
      exact hla
    · rw [hlast hne, hla]

/-- Witness for C3 at the concrete planners `wPlanner` (hysteresis 1),
`nPlanner` (hysteresis 2, full all-STOP history, deviant raw cycle) and
`wPlanner` again for a full window of identical raw actions. -/
theorem c3_witness :
    ((1 ≤ wPlanner.hyst ∧
        (pushHistory wPlanner.hyst wPlanner.history
          (rawAction wPlanner [])).length = wPlanner.hyst) ∧
      ∃ p' r, chooseAction wPlanner [] = Except.ok (p', r) ∧
        mostCommon1 (pushHistory wPlanner.hyst wPlanner.history
          (rawAction wPlanner [])) = some r.action) ∧
    ((2 ≤ nPlanner.hyst ∧
        nPlanner.history = List.replicate nPlanner.hyst Action.STOP) ∧
      ∃ p' r, chooseAction nPlanner [] = Except.ok (p', r) ∧
        r.action = Action.STOP) ∧
    ((1 ≤ wPlanner.hyst ∧ wPlanner.history.length ≤ wPlanner.hyst ∧
        ([([] : List (ℚ × ℚ))]).length = wPlanner.hyst ∧
        (∀ s ∈ [([] : List (ℚ × ℚ))], rawAction wPlanner s = Action.TURN_RIGHT)) ∧
      ∃ pf rs, runScans wPlanner [([] : List (ℚ × ℚ))] = Except.ok (pf, rs) ∧
        pf.lastAction = Action.TURN_RIGHT ∧
        (rs.map Decision.action).getLast? = some Action.TURN_RIGHT) :=
  ⟨⟨⟨by decide, rfl⟩,
    c3_hysteresis.1 wPlanner [] (by decide) rfl⟩,
   ⟨⟨by decide, rfl⟩,
    c3_hysteresis.2.1 nPlanner [] Action.STOP (by decide) rfl⟩,
   ⟨⟨by decide, by decide, by decide, by
      intro s hs
      rw [List.mem_singleton] at hs
      subst hs
      exact wRawEmpty⟩,
    c3_hysteresis.2.2 wPlanner [[]] Action.TURN_RIGHT (by decide) (by decide)
      (by decide)
      (by
        intro s hs
        rw [List.mem_singleton] at hs
        subst hs
        exact wRawEmpty)⟩⟩

/-! ## The all-clear scenario steers backwards (claim C4) -/

theorem gapOf_update (p : Planner) (X : List Action) (Y : Action)
    (s : List (ℚ × ℚ)) :
    gapOf { p with history := X, lastAction := Y } s = gapOf p s := rfl

theorem mkPlanner_c4 : mkPlanner (1/2) (-90) 90 90 10 8 3 = Except.ok c4Planner := by
  norm_num [mkPlanner, c4Planner, norm360]

theorem c4Occ : buildOccupancy c4Planner c4Scan = [false, false, false, false] := by
  norm_num [buildOccupancy, c4Scan, occStep, nBins, c4Planner, Int.toNat_ofNat,
    List.replicate]

theorem c4Fov : extractFovBins c4Planner = [0, 1, 3] := by
  norm_num [extractFovBins, nBins, c4Planner, Int.toNat_ofNat, List.range_succ,
    angleInSector, norm360, List.filter]

theorem c4Gap : gapOf c4Planner c4Scan = some (0, 3, 3) := by
  rw [gapOf, c4Occ, c4Fov]
  rfl

theorem c4Raw : rawAction c4Planner c4Scan = Action.TURN_RIGHT := by
  rw [rawAction, c4Gap]
  norm_num [binToAngle, norm360, c4Planner]

theorem c4Angle : binToAngle c4Planner ((0 + 3) / 2) = 135 := by
  norm_num [binToAngle, norm360, c4Planner]

theorem c4Stable1 : stableOf c4Planner c4Scan = Action.STOP := by
  unfold stableOf
  rw [c4Raw]
  rfl

theorem c4Raw2 :
    rawAction { c4Planner with history := [Action.TURN_RIGHT], lastAction := Action.STOP } c4Scan = Action.TURN_RIGHT := by
  rw [rawAction_update]
  exact c4Raw

theorem c4Stable2 :
    stableOf { c4Planner with history := [Action.TURN_RIGHT], lastAction := Action.STOP } c4Scan = Action.STOP := by
  unfold stableOf
  rw [rawAction_update, c4Raw]
  rfl

theorem c4Raw3 :
    rawAction { c4Planner with history := [Action.TURN_RIGHT, Action.TURN_RIGHT], lastAction := Action.STOP } c4Scan = Action.TURN_RIGHT := by
  rw [rawAction_update]
  exact c4Raw

theorem c4Stable3 :
    stableOf { c4Planner with history := [Action.TURN_RIGHT, Action.TURN_RIGHT], lastAction := Action.STOP } c4Scan = Action.TURN_RIGHT := by
  unfold stableOf
  rw [rawAction_update, c4Raw]
  rfl

theorem c4Step1 : chooseAction c4Planner c4Scan =
    Except.ok ({ c4Planner with history := [Action.TURN_RIGHT], lastAction := Action.STOP }, c4D Action.STOP) := by
  rw [chooseAction_eq c4Planner c4Scan (by decide), c4Stable1, c4Gap, c4Occ, c4Raw]
  simp only [Option.map_some']
  rw [c4Angle]
  rfl

theorem c4Step2 : chooseAction { c4Planner with history := [Action.TURN_RIGHT], lastAction := Action.STOP } c4Scan =
    Except.ok ({ c4Planner with history := [Action.TURN_RIGHT, Action.TURN_RIGHT], lastAction := Action.STOP }, c4D Action.STOP) := by
  rw [chooseAction_eq _ c4Scan (by decide), c4Stable2, gapOf_update, c4Gap,
    buildOccupancy_update, c4Occ, rawAction_update, c4Raw]
  simp only [Option.map_some']
  rw [show binToAngle { c4Planner with history := [Action.TURN_RIGHT], lastAction := Action.STOP } ((0 + 3) / 2) = binToAngle c4Planner ((0 + 3) / 2) from rfl, c4Angle]
  rfl

theorem c4Step3 : chooseAction { c4Planner with history := [Action.TURN_RIGHT, Action.TURN_RIGHT], lastAction := Action.STOP } c4Scan =
    Except.ok ({ c4Planner with history := [Action.TURN_RIGHT, Action.TURN_RIGHT, Action.TURN_RIGHT], lastAction := Action.TURN_RIGHT }, c4D Action.TURN_RIGHT) := by
  rw [chooseAction_eq _ c4Scan (by decide), c4Stable3, gapOf_update, c4Gap,
    buildOccupancy_update, c4Occ, rawAction_update, c4Raw]
  simp only [Option.map_some']
  rw [show binToAngle { c4Planner with history := [Action.TURN_RIGHT, Action.TURN_RIGHT], lastAction := Action.STOP } ((0 + 3) / 2) = binToAngle c4Planner ((0 + 3) / 2) from rfl, c4Angle]
  rfl

/-- C4 (code bug): a planner over the forward FOV `[-90, 90]` fed the same
all-clear 5000 mm scan three times answers STOP, STOP, TURN_RIGHT — never
FORWARD — with target angle 135° and `(v, ω) = (0, -0.8)` once the history
fills, because the gap midpoint `(s_idx + e_idx) // 2` averages absolute bin
indices across the wrapped FOV. -/
theorem c4_all_clear_turns_right :
    mkPlanner (1/2) (-90) 90 90 10 8 3 = Except.ok c4Planner ∧
    runScans c4Planner [c4Scan, c4Scan, c4Scan] =
      Except.ok ({ c4Planner with history := [Action.TURN_RIGHT, Action.TURN_RIGHT, Action.TURN_RIGHT], lastAction := Action.TURN_RIGHT },
        [c4D Action.STOP, c4D Action.STOP, c4D Action.TURN_RIGHT]) ∧
    (c4D Action.TURN_RIGHT).action = Action.TURN_RIGHT ∧
    (c4D Action.TURN_RIGHT).v = 0 ∧
    (c4D Action.TURN_RIGHT).omega = -(4/5) ∧
    (c4D Action.TURN_RIGHT).targetAngle = some 135 := by
  refine ⟨mkPlanner_c4, ?_, rfl, rfl, by norm_num [c4D, velocityOf], rfl⟩
  exact runScans_cons c4Step1 (runScans_cons c4Step2 (runScans_cons c4Step3 rfl))

/-! ## The occupancy mask: characterisation and order-insensitivity -/

theorem getD_set_true (l : List Bool) (b j : ℕ) :
    ((l.set b true).getD j false = true) ↔
      ((b = j ∧ j < l.length) ∨ l.getD j false = true) := by
  rw [List.getD_eq_getElem?_getD, List.getD_eq_getElem?_getD, List.getElem?_set]
  by_cases hbj : b = j
  · subst hbj
    by_cases hb : b < l.length
    · simp [hb]
    · simp only [hb, if_true, if_false]
      simp [hb]
      rw [List.getElem?_eq_none (le_of_not_lt hb)]
      rfl
  · simp [hbj]

theorem buildOcc_fold_getD (p : Planner) :
    ∀ (scan : List (ℚ × ℚ)) (init : List Bool) (j : ℕ),
      ((scan.foldl (occStep p) init).getD j false = true) ↔
        (init.getD j false = true ∨
          (j < init.length ∧ ∃ pt ∈ scan, 0 < pt.2 ∧
            pt.2 / 1000 ≤ p.safeDist ∧ binIdx p pt.1 = j)) := by
  intro scan
  induction scan with
  | nil =>
    intro init j
    simp
  | cons pt rest ih =>
    intro init j
    rw [List.foldl_cons]
    by_cases h0 : pt.2 ≤ 0
    · rw [show occStep p init pt = init from by rw [occStep, if_pos h0]]
      rw [ih init j]
      constructor
      · rintro (h | ⟨hj, q, hq, hc⟩)
        · exact Or.inl h
        · exact Or.inr ⟨hj, q, List.mem_cons_of_mem pt hq, hc⟩
      · rintro (h | ⟨hj, q, hq, h1, h2, h3⟩)
        · exact Or.inl h
        · rcases List.mem_cons.mp hq with rfl | hq'
          · exact absurd h1 (not_lt.mpr h0)
          · exact Or.inr ⟨hj, q, hq', h1, h2, h3⟩
    · by_cases hsafe : pt.2 / 1000 ≤ p.safeDist
      · rw [show occStep p init pt = init.set (binIdx p pt.1) true from by
          rw [occStep, if_neg h0, if_pos hsafe]]
        rw [ih, List.length_set, getD_set_true]
        constructor
        · rintro ((⟨hb, hj⟩ | h) | ⟨hj, q, hq, hc⟩)
          · exact Or.inr ⟨hj, pt, List.mem_cons_self pt rest, not_le.mp h0,
              hsafe, hb⟩
          · exact Or.inl h
          · exact Or.inr ⟨hj, q, List.mem_cons_of_mem pt hq, hc⟩
        · rintro (h | ⟨hj, q, hq, h1, h2, h3⟩)
          · exact Or.inl (Or.inr h)
          · rcases List.mem_cons.mp hq with rfl | hq'
            · exact Or.inl (Or.inl ⟨h3, hj⟩)
            · exact Or.inr ⟨hj, q, hq', h1, h2, h3⟩
      · rw [show occStep p init pt = init from by
          rw [occStep, if_neg h0, if_neg hsafe]]
        rw [ih init j]
        constructor
        · rintro (h | ⟨hj, q, hq, hc⟩)
          · exact Or.inl h
          · exact Or.inr ⟨hj, q, List.mem_cons_of_mem pt hq, hc⟩
        · rintro (h | ⟨hj, q, hq, h1, h2, h3⟩)
          · exact Or.inl h
          · rcases List.mem_cons.mp hq with rfl | hq'
            · exact absurd h2 hsafe
            · exact Or.inr ⟨hj, q, hq', h1, h2, h3⟩

theorem buildOccupancy_length (p : Planner) (scan : List (ℚ × ℚ)) :
    (buildOccupancy p scan).length = nBins p := by
  rw [buildOccupancy]
  have hf : ∀ (l : List (ℚ × ℚ)) (init : List Bool),
      (l.foldl (occStep p) init).length = init.length := by
    intro l
    induction l with
    | nil => intro init; rfl
    | cons pt rest ih =>
      intro init
      rw [List.foldl_cons, ih, occStep]
      by_cases h0 : pt.2 ≤ 0
      · rw [if_pos h0]
      · rw [if_neg h0]
        by_cases hs : pt.2 / 1000 ≤ p.safeDist
        · rw [if_pos hs, List.length_set]
        · rw [if_neg hs]
  rw [hf, List.length_replicate]

theorem getD_replicate_false (n j : ℕ) :
    (List.replicate n false).getD j false = false := by
  rw [List.getD_eq_getElem?_getD, List.getElem?_replicate]
  by_cases h : j < n
  · rw [if_pos h]
    rfl
  · rw [if_neg h]
    rfl

/-- C5: the occupancy mask has `⌊360 / resolution⌋` bins (equal to
`360 / resolution` whenever the resolution divides 360), and bin `j` is
blocked exactly when some sample with positive distance at most
`1000 * safe_dist` mm falls (after normalising its angle modulo 360) into
bin `j = ⌊normalised angle / resolution⌋ mod M`; non-positive distances
never mark nor clear a bin. -/
theorem c5_build_occupancy (p : Planner) (scan : List (ℚ × ℚ))
    (hres : 0 < p.res) (hres360 : p.res ≤ 360) :
    (buildOccupancy p scan).length = nBins p ∧
    (∀ k : ℕ, p.res * (k : ℚ) = 360 → nBins p = k) ∧
    (∀ j, j < nBins p →
      ((buildOccupancy p scan).getD j false = true ↔
        ∃ pt ∈ scan, 0 < pt.2 ∧ pt.2 / 1000 ≤ p.safeDist ∧
          binIdx p pt.1 = j)) := by
  refine ⟨buildOccupancy_length p scan, ?_, ?_⟩
  · intro k hk
    have hr0 : p.res ≠ 0 := ne_of_gt hres
    have hdiv : (360 : ℚ) / p.res = (k : ℚ) := by
      rw [div_eq_iff hr0, mul_comm]
      exact hk.symm
    rw [nBins, hdiv, Int.floor_natCast, Int.toNat_natCast]
  · intro j hj
    rw [buildOccupancy, buildOcc_fold_getD, getD_replicate_false,
      List.length_replicate]
    simp [hj]

theorem buildOccupancy_mem_congr (p : Planner) (s1 s2 : List (ℚ × ℚ))
    (hmem : ∀ pt, pt ∈ s1 ↔ pt ∈ s2) :
    buildOccupancy p s1 = buildOccupancy p s2 := by
  apply List.ext_getElem
    (by rw [buildOccupancy_length, buildOccupancy_length])
  intro n h1 h2
  rw [← List.getD_eq_getElem (buildOccupancy p s1) false h1,
    ← List.getD_eq_getElem (buildOccupancy p s2) false h2]
  rw [Bool.eq_iff_iff]
  rw [buildOccupancy, buildOccupancy, buildOcc_fold_getD, buildOcc_fold_getD]
  constructor
  · rintro (h | ⟨hj, q, hq, hc⟩)
    · exact Or.inl h
    · exact Or.inr ⟨hj, q, (hmem q).mp hq, hc⟩
  · rintro (h | ⟨hj, q, hq, hc⟩)
    · exact Or.inl h
    · exact Or.inr ⟨hj, q, (hmem q).mpr hq, hc⟩

/-- C10: `build_occupancy_by_angle` is order- and multiplicity-insensitive:
permuted scans yield equal masks, and more generally any two scans with the
same members yield equal masks. -/
theorem c10_occupancy_order_insensitive :
    (∀ (p : Planner) (s1 s2 : List (ℚ × ℚ)), s1.Perm s2 →
      buildOccupancy p s1 = buildOccupancy p s2) ∧
    (∀ (p : Planner) (s1 s2 : List (ℚ × ℚ)), (∀ pt, pt ∈ s1 ↔ pt ∈ s2) →
      buildOccupancy p s1 = buildOccupancy p s2) :=
  ⟨fun p s1 s2 hperm =>
    buildOccupancy_mem_congr p s1 s2 (fun _ => hperm.mem_iff),
   fun p s1 s2 hmem => buildOccupancy_mem_congr p s1 s2 hmem⟩

/-- Witness for C5 at the small planner and a single 300 mm return at 45°,
which blocks bin 0. -/
theorem c5_witness :
    ((0:ℚ) < wPlanner.res ∧ wPlanner.res ≤ 360) ∧
    ((buildOccupancy wPlanner [((45 : ℚ), 300)]).length = nBins wPlanner ∧
      (∀ k : ℕ, wPlanner.res * (k : ℚ) = 360 → nBins wPlanner = k) ∧
      (∀ j, j < nBins wPlanner →
        ((buildOccupancy wPlanner [((45 : ℚ), 300)]).getD j false = true ↔
          ∃ pt ∈ [((45 : ℚ), 300)], 0 < pt.2 ∧
            pt.2 / 1000 ≤ wPlanner.safeDist ∧ binIdx wPlanner pt.1 = j))) :=
  ⟨⟨by decide, by decide⟩,
   c5_build_occupancy wPlanner [((45 : ℚ), 300)] (by decide) (by decide)⟩

/-- Witness for C10: a two-point scan against its swap, and a duplicated
point against the single occurrence. -/
theorem c10_witness :
    (List.Perm [((0 : ℚ), (400 : ℚ)), ((90 : ℚ), (400 : ℚ))]
        [((90 : ℚ), (400 : ℚ)), ((0 : ℚ), (400 : ℚ))] ∧
      buildOccupancy wPlanner [((0 : ℚ), (400 : ℚ)), ((90 : ℚ), (400 : ℚ))] =
        buildOccupancy wPlanner [((90 : ℚ), (400 : ℚ)), ((0 : ℚ), (400 : ℚ))]) ∧
    ((∀ pt, pt ∈ [((0 : ℚ), (400 : ℚ)), ((0 : ℚ), (400 : ℚ))] ↔
        pt ∈ [((0 : ℚ), (400 : ℚ))]) ∧
      buildOccupancy wPlanner [((0 : ℚ), (400 : ℚ)), ((0 : ℚ), (400 : ℚ))] =
        buildOccupancy wPlanner [((0 : ℚ), (400 : ℚ))]) :=
  ⟨⟨List.Perm.swap _ _ _,
    c10_occupancy_order_insensitive.1 wPlanner _ _ (List.Perm.swap _ _ _)⟩,
   ⟨by intro pt; simp,
    c10_occupancy_order_insensitive.2 wPlanner _ _ (by intro pt; simp)⟩⟩

/-! ## STOP cycles and the reported target angle (claim C9) -/

/-- C9 (amended): when no gap exists, the raw action is STOP and the result
carries no target angle; when a gap exists but is narrower than `min_gap`,
the raw action is STOP, yet the returned dict still reports the too-narrow
gap's centre angle and width, because line 171 recomputes `target_angle`
from `gap` instead of using the `None` set at line 121. -/
theorem c9_narrow_gap_stop (p : Planner) (scan : List (ℚ × ℚ))
    (h1 : 1 ≤ p.hyst) :
    (gapOf p scan = none → rawAction p scan = Action.STOP ∧
      ∃ p' r, chooseAction p scan = Except.ok (p', r) ∧
        r.targetAngle = none ∧ r.gapWidthBins = none) ∧
    (∀ s e w, gapOf p scan = some (s, e, w) → (w : ℤ) < p.minGap →
      rawAction p scan = Action.STOP ∧
      ∃ p' r, chooseAction p scan = Except.ok (p', r) ∧
        r.targetAngle = some (binToAngle p ((s + e) / 2)) ∧
        r.gapWidthBins = some w) := by
  constructor
  · intro hgap
    refine ⟨rawAction_of_gap_none hgap, _, _, chooseAction_eq p scan h1, ?_, ?_⟩
    · show (gapOf p scan).map (fun g => binToAngle p ((g.1 + g.2.1) / 2)) = none
      rw [hgap]
      rfl
    · show (gapOf p scan).map (fun g => g.2.2) = none
      rw [hgap]
      rfl
  · intro s e w hgap hw
    refine ⟨?_, _, _, chooseAction_eq p scan h1, ?_, ?_⟩
    · rw [rawAction, hgap]
      exact if_pos hw
    · show (gapOf p scan).map (fun g => binToAngle p ((g.1 + g.2.1) / 2)) =
        some (binToAngle p ((s + e) / 2))
      rw [hgap, Option.map_some']
    · show (gapOf p scan).map (fun g => g.2.2) = some w
      rw [hgap, Option.map_some']

theorem mkPlanner_c9 : mkPlanner (1/2) (-90) 90 90 180 8 1 = Except.ok c9Planner := by
  norm_num [mkPlanner, c9Planner, norm360]

theorem c9Occ : buildOccupancy c9Planner c9Scan = [false, true, false, true] := by
  norm_num [buildOccupancy, c9Scan, occStep, binIdx, norm360, nBins, c9Planner,
    Int.toNat_ofNat, List.replicate, List.set]

theorem c9Fov : extractFovBins c9Planner = [0, 1, 3] := by
  norm_num [extractFovBins, nBins, c9Planner, Int.toNat_ofNat, List.range_succ,
    angleInSector, norm360, List.filter]

theorem c9Gap : gapOf c9Planner c9Scan = some (0, 0, 1) := by
  rw [gapOf, c9Occ, c9Fov]
  rfl

theorem c9Raw : rawAction c9Planner c9Scan = Action.STOP := by
  rw [rawAction, c9Gap]
  rfl

theorem c9Stable : stableOf c9Planner c9Scan = Action.STOP := by
  unfold stableOf
  rw [c9Raw]
  rfl

theorem c9Angle : binToAngle c9Planner ((0 + 0) / 2) = 45 := by
  norm_num [binToAngle, norm360, c9Planner]

/-- Counterexample to C9 as stated: at `c9Planner` (min gap 2 bins) on
`c9Scan` the largest gap is 1 bin wide, the raw action is STOP, and yet the
returned decision carries the target angle 45° (and the gap width) instead
of no target angle. -/
theorem c9_counterexample :
    mkPlanner (1/2) (-90) 90 90 180 8 1 = Except.ok c9Planner ∧
    gapOf c9Planner c9Scan = some (0, 0, 1) ∧
    c9Planner.minGap = 2 ∧
    rawAction c9Planner c9Scan = Action.STOP ∧
    chooseAction c9Planner c9Scan = Except.ok
      ({ c9Planner with history := [Action.STOP], lastAction := Action.STOP },
       { action := Action.STOP, targetAngle := some 45, gapWidthBins := some 1,
         v := 0, omega := 0, blockedMap := [false, true, false, true] }) := by
  refine ⟨mkPlanner_c9, c9Gap, rfl, c9Raw, ?_⟩
  rw [chooseAction_eq c9Planner c9Scan (by decide), c9Stable, c9Gap, c9Occ, c9Raw]
  simp only [Option.map_some']
  rw [c9Angle]
  rfl

/-- Witness for C9 (amended): the no-gap branch at `wPlanner` under the
all-blocking scan, and the narrow-gap branch at `c9Planner`. -/
theorem c9_witness :
    ((1 ≤ wPlanner.hyst ∧ gapOf wPlanner wBlockAll = none) ∧
      (rawAction wPlanner wBlockAll = Action.STOP ∧
        ∃ p' r, chooseAction wPlanner wBlockAll = Except.ok (p', r) ∧
          r.targetAngle = none ∧ r.gapWidthBins = none)) ∧
    ((1 ≤ c9Planner.hyst ∧ gapOf c9Planner c9Scan = some (0, 0, 1) ∧
        ((1 : ℕ) : ℤ) < c9Planner.minGap) ∧
      (rawAction c9Planner c9Scan = Action.STOP ∧
        ∃ p' r, chooseAction c9Planner c9Scan = Except.ok (p', r) ∧
          r.targetAngle = some (binToAngle c9Planner ((0 + 0) / 2)) ∧
          r.gapWidthBins = some 1)) :=
  ⟨⟨⟨by decide, by rw [gapOf, wOccBlockAll, wFov]; rfl⟩,
    (c9_narrow_gap_stop wPlanner wBlockAll (by decide)).1
      (by rw [gapOf, wOccBlockAll, wFov]; rfl)⟩,
   ⟨⟨by decide, c9Gap, by decide⟩,
    (c9_narrow_gap_stop c9Planner c9Scan (by decide)).2 0 0 1 c9Gap (by decide)⟩⟩

/-! ## The signal conditioner (claims C6, C7) -/

theorem validPairsAux_nil_iff : ∀ (l : List (Option ℚ)) (i : ℕ),
    (validPairsAux i l = [] ↔ ∀ o ∈ l, o = none) := by
  intro l
  induction l with
  | nil => intro i; simp [validPairsAux]
  | cons o rest ih =>
    intro i
    cases o with
    | none =>
      rw [validPairsAux, ih (i + 1)]
      constructor
      · intro h x hx
        rcases List.mem_cons.mp hx with hb | hb
        · rw [hb]
        · exact h x hb
      · intro h x hx
        exact h x (List.mem_cons_of_mem none hx)
    | some v =>
      rw [validPairsAux]
      constructor
      · intro h
        cases h
      · intro h
        have := h (some v) (List.mem_cons_self (some v) rest)
        cases this

theorem fillNansAux_length (vp : List (ℚ × ℚ)) :
    ∀ (l : List (Option ℚ)) (i : ℕ), (fillNansAux vp i l).length = l.length := by
  intro l
  induction l with
  | nil => intro i; rfl
  | cons o rest ih =>
    intro i
    cases o with
    | none => rw [fillNansAux, List.length_cons, List.length_cons, ih]
    | some v => rw [fillNansAux, List.length_cons, List.length_cons, ih]

theorem medianFilter_length (x : List ℚ) (k : ℕ) :
    (medianFilter x k).length = x.length := by
  simp only [medianFilter, List.length_map, List.length_range]

/-- C6: the temporal-smoothing step of `LidarSmoother.__call__` stores the
filtered profile unblended on the first call, and on later calls returns and
stores `alpha * filtered + (1 - alpha) * state`. -/
theorem c6_temporal_smoothing (sm : LidarSmoother) (d : List (Option ℚ))
    (f : List ℚ) (hf : filteredProfile sm.medWin d = Except.ok f) :
    (sm.state = none →
      smootherCall sm d = Except.ok ({ sm with state := some f }, f)) ∧
    (∀ s, sm.state = some s →
      smootherCall sm d = Except.ok
        ({ sm with state := some (List.zipWith
            (fun fv sv => sm.alpha * fv + (1 - sm.alpha) * sv) f s) },
         List.zipWith (fun fv sv => sm.alpha * fv + (1 - sm.alpha) * sv) f s)) := by
  constructor
  · intro hs
    rw [smootherCall, hf, hs]
  · intro s hs
    rw [smootherCall, hf, hs]

theorem c6Filtered : filteredProfile 1 c6Input = Except.ok [200, 300] := by
  norm_num [filteredProfile, c6Input, validFilter, validPairsAux, fillNansAux,
    medianFilter, medianOf, List.range_succ, List.insertionSort, List.orderedInsert]

/-- Witness for C6: a fresh conditioner stores the filtered profile
directly; one with state `[100, 100]` and α = 1/2 blends to `[150, 200]`. -/
theorem c6_witness :
    (filteredProfile c6Smoother.medWin c6Input = Except.ok [200, 300] ∧
      c6Smoother.state = none ∧
      smootherCall c6Smoother c6Input =
        Except.ok ({ c6Smoother with state := some [200, 300] }, [200, 300])) ∧
    (filteredProfile c6Smoother2.medWin c6Input = Except.ok [200, 300] ∧
      c6Smoother2.state = some [100, 100] ∧
      smootherCall c6Smoother2 c6Input =
        Except.ok ({ c6Smoother2 with state := some [150, 200] }, [150, 200])) := by
  have hzip : List.zipWith
      (fun fv sv => c6Smoother2.alpha * fv + (1 - c6Smoother2.alpha) * sv)
      [(200 : ℚ), 300] [100, 100] = [150, 200] := by
    norm_num [c6Smoother2]
  refine ⟨⟨c6Filtered, rfl, ?_⟩, ⟨c6Filtered, rfl, ?_⟩⟩
  · exact (c6_temporal_smoothing c6Smoother c6Input [200, 300] c6Filtered).1 rfl
  · have h := (c6_temporal_smoothing c6Smoother2 c6Input [200, 300] c6Filtered).2
      [100, 100] rfl
    rw [hzip] at h
    exact h

theorem c7Filtered_error :
    filteredProfile 5 [some 50, some 13000, none] = Except.error PyError.valueError := by
  norm_num [filteredProfile, validFilter, validPairsAux]

/-- Counterexample to C7 as stated: on an input whose three samples are all
invalid (too close, too far, non-finite), `LidarSmoother.__call__` raises
`ValueError` from `np.interp` instead of returning a length-3 profile of
missing markers. -/
theorem c7_counterexample :
    smootherCall (mkSmoother 3 (1/10) 5) [some 50, some 13000, none] =
      Except.error PyError.valueError := by
  rw [smootherCall, show (mkSmoother 3 (1/10) 5).medWin = 5 from rfl,
    c7Filtered_error]

/-- C7 (amended): the per-call operation raises no error and returns a
profile of the input's length whenever at least one sample is valid (finite
and within `[100, 12000]` mm); on an input with no valid sample it fails
with `ValueError` instead of propagating missing markers. -/
theorem c7_total_with_valid_sample (sm : LidarSmoother) (d : List (Option ℚ))
    (hvalid : ∃ v, some v ∈ d ∧ 100 ≤ v ∧ v ≤ 12000)
    (hstate : ∀ s, sm.state = some s → s.length = d.length) :
    ∃ sm' r, smootherCall sm d = Except.ok (sm', r) ∧ r.length = d.length ∧
      sm'.state = some r := by
  obtain ⟨v, hv, h100, h12000⟩ := hvalid
  have hvf : validFilter (some v) = some v := by
    rw [validFilter, if_neg]
    push_neg
    exact ⟨h100, h12000⟩
  have hvp : ¬ validPairsAux 0 (d.map validFilter) = [] := by
    intro hc
    rw [validPairsAux_nil_iff] at hc
    have hx := hc (some v)
      (by
        have hm := List.mem_map_of_mem validFilter hv
        rwa [hvf] at hm)
    cases hx
  have hdne : ¬ (d.isEmpty = true) := by
    rw [List.isEmpty_iff]
    exact List.ne_nil_of_mem hv
  simp only [smootherCall, filteredProfile]
  rw [if_neg (by intro hand; exact hvp hand.2), if_neg hdne]
  have hflen : (medianFilter (fillNansAux (validPairsAux 0 (d.map validFilter))
      0 (d.map validFilter)) sm.medWin).length = d.length := by
    rw [medianFilter_length, fillNansAux_length, List.length_map]
  cases hs : sm.state with
  | none => exact ⟨_, _, rfl, hflen, rfl⟩
  | some s =>
    refine ⟨_, _, rfl, ?_, rfl⟩
    rw [List.length_zipWith, hflen, hstate s hs]
    exact min_self _

/-- Witness for C7 (amended) at a conditioner holding a length-2 state and
an input with one missing and one valid sample. -/
theorem c7_witness :
    ((∃ v, some v ∈ [none, some (200 : ℚ)] ∧ 100 ≤ v ∧ v ≤ 12000) ∧
      (∀ s, c6Smoother2.state = some s →
        s.length = [none, some (200 : ℚ)].length)) ∧
    ∃ sm' r, smootherCall c6Smoother2 [none, some (200 : ℚ)] =
        Except.ok (sm', r) ∧
      r.length = [none, some (200 : ℚ)].length ∧ sm'.state = some r :=
  ⟨⟨⟨200, by decide, by decide, by decide⟩,
    by
      intro s h
      rw [show c6Smoother2.state = some [(100 : ℚ), 100] from rfl] at h
      injection h with h3
      rw [← h3]
      rfl⟩,
   c7_total_with_valid_sample c6Smoother2 [none, some 200]
     ⟨200, by decide, by decide, by decide⟩
     (by
       intro s h
       rw [show c6Smoother2.state = some [(100 : ℚ), 100] from rfl] at h
       injection h with h3
       rw [← h3]
       rfl)⟩

/-! ## Construction performs no validation (claim C8) -/

/-- C8 (amended): a planner constructs successfully for every configuration
except a zero resolution (where Python's `min_gap_deg // resolution_deg`
raises `ZeroDivisionError`); the conditioner's constructor always succeeds
and stores the median window unvalidated — an even window is only rounded up
to the next odd value inside `median_filter_1d`. -/
theorem c8_construction_unvalidated :
    (∀ (safe fovMin fovMax res mg ft : ℚ) (hy : ℕ),
      (∃ p, mkPlanner safe fovMin fovMax res mg ft hy = Except.ok p) ↔
        res ≠ 0) ∧
    (∀ (n : ℕ) (a : ℚ) (mw : ℕ),
      (mkSmoother n a mw).medWin = mw ∧ (mkSmoother n a mw).state = none) ∧
    (∀ x : List ℚ, medianFilter x 4 = medianFilter x 5) := by
  refine ⟨?_, fun n a mw => ⟨rfl, rfl⟩, fun x => rfl⟩
  intro safe fovMin fovMax res mg ft hy
  constructor
  · rintro ⟨p, hp⟩ hres0
    rw [mkPlanner, if_pos hres0] at hp
    cases hp
  · intro hres0
    exact ⟨_, by rw [mkPlanner, if_neg hres0]⟩

/-- Counterexample to C8 as stated: construction succeeds with a negative
safe distance, succeeds with a negative resolution, and a conditioner with
an even median window (4) is constructed without any error. -/
theorem c8_counterexample :
    (∃ p, mkPlanner (-1) (-90) 90 1 10 8 3 = Except.ok p) ∧
    (∃ p, mkPlanner (1/2) (-90) 90 (-1) 10 8 3 = Except.ok p) ∧
    (mkSmoother 360 (1/10) 4).medWin = 4 :=
  ⟨⟨_, by rw [mkPlanner, if_neg (by norm_num)]⟩,
   ⟨_, by rw [mkPlanner, if_neg (by norm_num)]⟩,
   rfl⟩

end DogBot
